import Mathlib

/-!
Verification of a Conway's Game of Life implementation on a finite,
non-wrapping rectangular grid.  The board is a dense row-major vector of
boolean cells together with its dimensions; generation advance applies the
standard rule table to a live-neighbor count taken over a clamped (edge-aware)
window.  Out-of-range grid accesses abort the program in the original, so all
grid reads and the operations built from them are modelled in `Option`, with
`none` standing for such an abort.
-/

namespace GameOfLife

/-- A `Board` mirrors the Rust `Board` struct: the `grid` crate's
`Grid<bool>` keeps a row count, a column count and a flat row-major
`Vec<bool>` that it maintains at length `rows * cols`. -/
structure Board where
  rows : Nat
  cols : Nat
  cells : List Bool
deriving DecidableEq

/-- The storage invariant maintained by the grid container: the flat cell
vector has exactly `rows * cols` elements. -/
def Board.Wf (b : Board) : Prop := b.cells.length = b.rows * b.cols

instance (b : Board) : Decidable b.Wf := by
  unfold Board.Wf; infer_instance

/-- Fallible cell read, mirroring `self.grid[row][col]`: indexing
`grid[row]` aborts when `row ≥ rows`, and indexing the returned row slice
(of length `cols`) aborts when `col ≥ cols`; an abort is `none`. -/
def Board.get? (b : Board) (row col : Nat) : Option Bool :=
  if row < b.rows ∧ col < b.cols then b.cells[row * b.cols + col]? else none

/-- Total cell read used in specification statements; on a well-formed board
it returns the stored cell, and `false` out of range. -/
def Board.cell (b : Board) (row col : Nat) : Bool :=
  (b.get? row col).getD false

/-- `mapOpt f l` runs `f` over `l` from the left and collects the results,
the whole computation failing when any single call fails: the `Option`
analogue of a Rust iterator pipeline whose per-element step may abort. -/
def mapOpt (f : α → Option β) : List α → Option (List β)
  | [] => some []
  | a :: l => (f a).bind (fun b => (mapOpt f l).map (fun bs => b :: bs))

/-- The clamped index window of `count_live_neighbors`, for one axis.  The
Rust `match` tries `0 => 0..=1` first, then `r if r == dim - 1 => (r-1)..=r`,
and otherwise `(idx-1)..=(idx+1)`; each inclusive range is listed in
ascending order.  Note the first arm wins when `dim = 1`, so the window then
contains the out-of-range index `1`. -/
def validWindow (dim idx : Nat) : List Nat :=
  if idx = 0 then [0, 1]
  else if idx = dim - 1 then [idx - 1, idx]
  else [idx - 1, idx, idx + 1]

/-- The position list traversed by `count_live_neighbors`: the cartesian
product of the two clamped windows (`valid_rows.cartesian_product(valid_cols)`),
with the centre `(row, col)` filtered out. -/
def Board.neighborPositions (b : Board) (row col : Nat) : List (Nat × Nat) :=
  ((validWindow b.rows row) ×ˢ (validWindow b.cols col)).filter
    (fun p => decide (p ≠ (row, col)))

/-- `Board.count_live_neighbors`: the neighbor positions are read in order
and the live cells counted.  A read outside the grid aborts (`none`). -/
def Board.countLiveNeighbors? (b : Board) (row col : Nat) : Option Nat :=
  (mapOpt (fun p => b.get? p.1 p.2) (b.neighborPositions row col)).map
    (fun vals => (vals.filter (fun v => v)).length)

/-- One cell of `Board.advance`: the `match` over the live-neighbor count.
`0` and `1` give dead, `2` re-reads the cell's current state, `3` gives
alive, everything larger gives dead. -/
def Board.stepCell? (b : Board) (row col : Nat) : Option Bool :=
  match b.countLiveNeighbors? row col with
  | none => none
  | some 0 => some false
  | some 1 => some false
  | some 2 => b.get? row col
  | some 3 => some true
  | some _ => some false

/-- `Grid::from_vec(vec, cols)`: the row count becomes `vec.len() / cols`;
the call aborts when the vector length is not a multiple of `cols` (and a
zero column count is only accepted for the empty vector). -/
def fromVec? (v : List Bool) (cols : Nat) : Option Board :=
  if cols = 0 then (if v.length = 0 then some ⟨0, 0, v⟩ else none)
  else if v.length % cols = 0 then some ⟨v.length / cols, cols, v⟩ else none

/-- `Board.advance`: every position `(row, col)` in row-major order is
stepped against the *current* grid, and the collected flat vector replaces
the grid via `Grid::from_vec` with the same column count. -/
def Board.advance? (b : Board) : Option Board :=
  (mapOpt (fun p => b.stepCell? p.1 p.2)
      ((List.range b.rows) ×ˢ (List.range b.cols))).bind
    (fun newState => fromVec? newState b.cols)

/-- `Board::dead`: a `rows × cols` board with every cell `false`
(`Grid::init(rows, cols, false)`). -/
def Board.dead (rows cols : Nat) : Board :=
  ⟨rows, cols, List.replicate (rows * cols) false⟩

/-- A board in which every cell is alive: the fixture of the spec's
edge-clamping property. -/
def Board.filled (rows cols : Nat) : Board :=
  ⟨rows, cols, List.replicate (rows * cols) true⟩

/-- The `Display` implementation as the sequence of characters it writes:
for each `(row, col)` in row-major order, the cell rendered as `1`/`0`
(`cell as u32`), then a newline exactly when `col == cols - 1`.  Grid reads
are fallible exactly as in `Board.get?`. -/
def Board.render? (b : Board) : Option (List Char) :=
  (mapOpt
    (fun p => (b.get? p.1 p.2).map (fun v =>
      (if v then ['1'] else ['0']) ++ (if p.2 = b.cols - 1 then ['\n'] else [])))
    ((List.range b.rows) ×ˢ (List.range b.cols))).map List.flatten

/-- The tests' `create_board_x_by_x`: a board from a flat row-major 0/1
vector and a column count, each entry converted to a boolean (nonzero is
alive), with `rows = len / cols` as in `Grid::from_vec`. -/
def boardOfNats (v : List Nat) (cols : Nat) : Board :=
  ⟨v.length / cols, cols, v.map (fun n => n != 0)⟩

/-- Modelled from the spec (§4.2 rule table): 0 or 1 live neighbors gives
dead, 2 copies the current state, 3 gives alive, 4 or more gives dead. -/
def lifeRule (n : Nat) (cur : Bool) : Bool :=
  match n with
  | 0 => false
  | 1 => false
  | 2 => cur
  | 3 => true
  | _ => false

/-- Modelled from the spec (§4.3): the clamped row/column index window as a
set of indices: `{0, 1}` when the index is 0, the last two indices when the
index is the last one, and `{idx-1, idx, idx+1}` otherwise. -/
def specWindow (dim idx : Nat) : Finset Nat :=
  if idx = 0 then {0, 1}
  else if idx = dim - 1 then {dim - 2, dim - 1}
  else {idx - 1, idx, idx + 1}

/-- Modelled from the spec (§4.3): the number of positions in the cartesian
product of the clamped row window and column window, other than `(row, col)`
itself, whose cell is alive. -/
def specNeighborCount (b : Board) (row col : Nat) : Nat :=
  ((specWindow b.rows row ×ˢ specWindow b.cols col).filter
    (fun p => p ≠ (row, col) ∧ b.cell p.1 p.2 = true)).card

/-- Modelled from the spec (§4.4): for each row in order, each cell of the
row as `'1'` (alive) or `'0'` (dead) with no separator, followed by exactly
one newline after the last column of the row. -/
def specRender (b : Board) : List Char :=
  ((List.range b.rows).map (fun r =>
    ((List.range b.cols).map (fun c => if b.cell r c then '1' else '0'))
      ++ ['\n'])).flatten

/-- The birth-rule fixture of `dead_3_neighbors_come_alive`. -/
def birthBoard : Board := boardOfNats [0, 0, 1, 0, 1, 1, 0, 0, 0] 3

/-- The expected result of advancing `birthBoard` once. -/
def birthAfter : Board := boardOfNats [0, 1, 1, 0, 1, 1, 0, 0, 0] 3

/-- The block still life of `common_still_lifes`. -/
def blockBoard : Board :=
  boardOfNats [0, 0, 0, 0, 0, 1, 1, 0, 0, 1, 1, 0, 0, 0, 0, 0] 4

/-- The beehive still life of `common_still_lifes`. -/
def beehiveBoard : Board :=
  boardOfNats
    [0, 0, 0, 0, 0, 0,
     0, 0, 1, 1, 0, 0,
     0, 1, 0, 0, 1, 0,
     0, 0, 1, 1, 0, 0,
     0, 0, 0, 0, 0, 0,
     0, 0, 0, 0, 0, 0] 6

/-- The boat still life of `common_still_lifes`. -/
def boatBoard : Board :=
  boardOfNats
    [0, 0, 0, 0, 0,
     0, 0, 1, 0, 0,
     0, 1, 0, 1, 0,
     0, 1, 1, 0, 0,
     0, 0, 0, 0, 0] 5

/-- The vertical blinker of `simple_oscillators`. -/
def blinkerV : Board :=
  boardOfNats
    [0, 0, 0, 0, 0,
     0, 0, 1, 0, 0,
     0, 0, 1, 0, 0,
     0, 0, 1, 0, 0,
     0, 0, 0, 0, 0] 5

/-- The horizontal blinker, the expected state after one advance. -/
def blinkerH : Board :=
  boardOfNats
    [0, 0, 0, 0, 0,
     0, 0, 0, 0, 0,
     0, 1, 1, 1, 0,
     0, 0, 0, 0, 0,
     0, 0, 0, 0, 0] 5

/-- The toad of `simple_oscillators`. -/
def toadBoard : Board :=
  boardOfNats
    [0, 0, 0, 0, 0, 0,
     0, 0, 0, 0, 0, 0,
     0, 0, 1, 1, 1, 0,
     0, 1, 1, 1, 0, 0,
     0, 0, 0, 0, 0, 0,
     0, 0, 0, 0, 0, 0] 6

/-- The toad's expected state after one advance. -/
def toadMid : Board :=
  boardOfNats
    [0, 0, 0, 0, 0, 0,
     0, 0, 0, 1, 0, 0,
     0, 1, 0, 0, 1, 0,
     0, 1, 0, 0, 1, 0,
     0, 0, 1, 0, 0, 0,
     0, 0, 0, 0, 0, 0] 6

/-! Basic facts about `mapOpt`, list products, windows and grid reads. -/

theorem mapOpt_nil (f : α → Option β) : mapOpt f [] = some [] := rfl

theorem mapOpt_cons (f : α → Option β) (a : α) (l : List α) :
    mapOpt f (a :: l) = (f a).bind (fun b => (mapOpt f l).map (fun bs => b :: bs)) := rfl

theorem mapOpt_length {f : α → Option β} {l : List α} {l' : List β}
    (h : mapOpt f l = some l') : l'.length = l.length := by
  induction l generalizing l' with
  | nil => rw [mapOpt_nil] at h; cases h; rfl
  | cons a t ih =>
    rw [mapOpt_cons, Option.bind_eq_some] at h
    obtain ⟨b, _, h⟩ := h
    rw [Option.map_eq_some'] at h
    obtain ⟨bs, hbs, rfl⟩ := h
    simp [ih hbs]

theorem mapOpt_eq_none_of_mem {f : α → Option β} {l : List α} {x : α}
    (hx : x ∈ l) (hfx : f x = none) : mapOpt f l = none := by
  induction l with
  | nil => cases hx
  | cons a t ih =>
    rcases List.mem_cons.mp hx with rfl | hmem
    · rw [mapOpt_cons, hfx]; rfl
    · rw [mapOpt_cons, ih hmem]
      cases f a <;> rfl

theorem mapOpt_of_forall_some {f : α → Option β} {g : α → β} {l : List α}
    (h : ∀ x ∈ l, f x = some (g x)) : mapOpt f l = some (l.map g) := by
  induction l with
  | nil => rfl
  | cons a t ih =>
    rw [mapOpt_cons, h a (List.mem_cons_self a t),
      ih (fun x hx => h x (List.mem_cons_of_mem a hx))]
    rfl

theorem mapOpt_isSome {f : α → Option β} {l : List α}
    (h : ∀ x ∈ l, (f x).isSome) : (mapOpt f l).isSome := by
  induction l with
  | nil => rfl
  | cons a t ih =>
    rw [mapOpt_cons]
    obtain ⟨b, hb⟩ := Option.isSome_iff_exists.mp (h a (List.mem_cons_self a t))
    obtain ⟨bs, hbs⟩ := Option.isSome_iff_exists.mp
      (ih (fun x hx => h x (List.mem_cons_of_mem a hx)))
    rw [hb, hbs]; rfl

theorem mapOpt_getElem? {f : α → Option β} {l : List α} {l' : List β}
    (h : mapOpt f l = some l') {i : Nat} {a : α} (ha : l[i]? = some a) :
    ∃ b, f a = some b ∧ l'[i]? = some b := by
  induction l generalizing l' i with
  | nil => simp at ha
  | cons x t ih =>
    rw [mapOpt_cons, Option.bind_eq_some] at h
    obtain ⟨b, hb, h⟩ := h
    rw [Option.map_eq_some'] at h
    obtain ⟨bs, hbs, rfl⟩ := h
    cases i with
    | zero =>
      simp only [List.getElem?_cons_zero, Option.some.injEq] at ha
      subst ha
      exact ⟨b, hb, by simp⟩
    | succ n =>
      simp only [List.getElem?_cons_succ] at ha ⊢
      exact ih hbs ha

theorem product_cons (x : α) (t : List α) (l₂ : List β) :
    (x :: t) ×ˢ l₂ = l₂.map (Prod.mk x) ++ t ×ˢ l₂ := by
  simp [SProd.sprod, List.product]

theorem product_getElem? (l₁ : List α) (l₂ : List β) (i j : Nat) (hj : j < l₂.length) :
    (l₁ ×ˢ l₂)[i * l₂.length + j]? =
      l₁[i]?.bind (fun a => l₂[j]?.map (fun b => (a, b))) := by
  induction l₁ generalizing i with
  | nil => simp [SProd.sprod, List.product]
  | cons x t ih =>
    rw [product_cons]
    cases i with
    | zero =>
      rw [Nat.zero_mul, Nat.zero_add, List.getElem?_append, if_pos (by simpa using hj)]
      simp [List.getElem?_map]
    | succ n =>
      have hidx : (n + 1) * l₂.length + j = (l₂.map (Prod.mk x)).length + (n * l₂.length + j) := by
        rw [List.length_map, Nat.succ_mul]
        ring
      rw [hidx, List.getElem?_append_right (Nat.le_add_right _ _), Nat.add_sub_cancel_left,
        List.getElem?_cons_succ]
      exact ih n

theorem mem_validWindow_lt {dim idx : Nat} (h2 : 2 ≤ dim) (hidx : idx < dim) :
    ∀ x ∈ validWindow dim idx, x < dim := by
  intro x hx
  unfold validWindow at hx
  by_cases h0 : idx = 0
  · rw [if_pos h0] at hx
    simp at hx
    rcases hx with rfl | rfl <;> omega
  · rw [if_neg h0] at hx
    by_cases hl : idx = dim - 1
    · rw [if_pos hl] at hx
      simp at hx
      rcases hx with rfl | rfl <;> omega
    · rw [if_neg hl] at hx
      simp at hx
      rcases hx with rfl | rfl | rfl <;> omega

theorem self_mem_validWindow (dim idx : Nat) : idx ∈ validWindow dim idx := by
  unfold validWindow
  by_cases h0 : idx = 0
  · rw [if_pos h0, h0]; simp
  · rw [if_neg h0]
    by_cases hl : idx = dim - 1 <;> simp [hl]

theorem validWindow_nodup (dim idx : Nat) : (validWindow dim idx).Nodup := by
  unfold validWindow
  by_cases h0 : idx = 0
  · rw [if_pos h0]; simp
  · rw [if_neg h0]
    by_cases hl : idx = dim - 1
    · rw [if_pos hl]; simp; omega
    · rw [if_neg hl]; simp; all_goals omega

theorem validWindow_length (dim idx : Nat) :
    (validWindow dim idx).length = if idx = 0 ∨ idx = dim - 1 then 2 else 3 := by
  unfold validWindow
  by_cases h0 : idx = 0
  · rw [if_pos h0, if_pos (Or.inl h0)]; rfl
  · rw [if_neg h0]
    by_cases hl : idx = dim - 1
    · rw [if_pos hl, if_pos (Or.inr hl)]; rfl
    · rw [if_neg hl, if_neg (by tauto)]; rfl

theorem index_lt {rows cols row col : Nat} (hr : row < rows) (hc : col < cols) :
    row * cols + col < rows * cols := by
  have h2 : (row + 1) * cols ≤ rows * cols :=
    Nat.mul_le_mul (Nat.succ_le_of_lt hr) (Nat.le_refl cols)
  rw [Nat.succ_mul] at h2
  omega

theorem Board.get?_eq_some_cell {b : Board} (hwf : b.Wf) {row col : Nat}
    (hr : row < b.rows) (hc : col < b.cols) :
    b.get? row col = some (b.cell row col) := by
  have hidx : row * b.cols + col < b.cells.length := by
    rw [hwf]; exact index_lt hr hc
  unfold Board.cell
  cases hg : b.get? row col with
  | none =>
    exfalso
    unfold Board.get? at hg
    rw [if_pos ⟨hr, hc⟩, List.getElem?_eq_getElem hidx] at hg
    cases hg
  | some v => rfl

theorem Board.get?_replicate {rows cols row col : Nat} {v : Bool}
    (hr : row < rows) (hc : col < cols) :
    (Board.mk rows cols (List.replicate (rows * cols) v)).get? row col = some v := by
  unfold Board.get?
  rw [if_pos ⟨hr, hc⟩]
  have hidx : row * cols + col < (List.replicate (rows * cols) v).length := by
    rw [List.length_replicate]; exact index_lt hr hc
  rw [List.getElem?_eq_getElem hidx]
  simp

theorem Board.get?_none_of_row {b : Board} {row col : Nat} (h : ¬ row < b.rows) :
    b.get? row col = none := by
  unfold Board.get?
  rw [if_neg (fun hand => h hand.1)]

theorem Board.get?_none_of_col {b : Board} {row col : Nat} (h : ¬ col < b.cols) :
    b.get? row col = none := by
  unfold Board.get?
  rw [if_neg (fun hand => h hand.2)]

theorem Board.dead_rows (rows cols : Nat) : (Board.dead rows cols).rows = rows := rfl

theorem Board.dead_cols (rows cols : Nat) : (Board.dead rows cols).cols = cols := rfl

theorem Board.dead_wf (rows cols : Nat) : (Board.dead rows cols).Wf := by
  simp [Board.dead, Board.Wf]

theorem Board.filled_wf (rows cols : Nat) : (Board.filled rows cols).Wf := by
  simp [Board.filled, Board.Wf]

theorem Board.get?_filled {rows cols row col : Nat} (hr : row < rows) (hc : col < cols) :
    (Board.filled rows cols).get? row col = some true :=
  Board.get?_replicate hr hc

theorem Board.get?_dead {rows cols row col : Nat} (hr : row < rows) (hc : col < cols) :
    (Board.dead rows cols).get? row col = some false :=
  Board.get?_replicate hr hc

theorem Board.cell_filled {rows cols row col : Nat} (hr : row < rows) (hc : col < cols) :
    (Board.filled rows cols).cell row col = true := by
  unfold Board.cell
  rw [Board.get?_filled hr hc]
  rfl

/-! Characterizing the live-neighbor count. -/

theorem mem_neighborPositions {b : Board} {row col : Nat} {p : Nat × Nat} :
    p ∈ b.neighborPositions row col ↔
      p.1 ∈ validWindow b.rows row ∧ p.2 ∈ validWindow b.cols col ∧ p ≠ (row, col) := by
  obtain ⟨p1, p2⟩ := p
  unfold Board.neighborPositions
  rw [List.mem_filter]
  simp only [List.mem_product, decide_eq_true_eq]
  tauto

theorem countLiveNeighbors?_eq_some {b : Board} (hwf : b.Wf) {row col : Nat}
    (h2r : 2 ≤ b.rows) (h2c : 2 ≤ b.cols) (hr : row < b.rows) (hc : col < b.cols) :
    b.countLiveNeighbors? row col =
      some (((b.neighborPositions row col).filter (fun p => b.cell p.1 p.2)).length) := by
  have hall : ∀ p ∈ b.neighborPositions row col,
      b.get? p.1 p.2 = some ((fun p : Nat × Nat => b.cell p.1 p.2) p) := by
    intro p hp
    rw [mem_neighborPositions] at hp
    exact b.get?_eq_some_cell hwf (mem_validWindow_lt h2r hr p.1 hp.1)
      (mem_validWindow_lt h2c hc p.2 hp.2.1)
  unfold Board.countLiveNeighbors?
  rw [mapOpt_of_forall_some hall, Option.map_some']
  congr 1
  rw [List.filter_map, List.length_map]
  rfl

theorem length_filter_ne {α : Type _} [DecidableEq α] {l : List α} {a : α}
    (nd : l.Nodup) (ha : a ∈ l) :
    (l.filter (fun x => decide (x ≠ a))).length = l.length - 1 := by
  induction l with
  | nil => cases ha
  | cons x t ih =>
    rw [List.nodup_cons] at nd
    by_cases hxa : x = a
    · subst hxa
      have ht : t.filter (fun y => decide (y ≠ x)) = t :=
        List.filter_eq_self.mpr (fun y hy => by
          simp only [decide_eq_true_eq]
          exact fun hyx => nd.1 (hyx ▸ hy))
      rw [List.filter_cons_of_neg (by simp), ht]
      simp
    · have hat : a ∈ t := by
        rcases List.mem_cons.mp ha with h | h
        · exact absurd h.symm hxa
        · exact h
      have htlen : 1 ≤ t.length := List.length_pos.mpr (List.ne_nil_of_mem hat)
      rw [List.filter_cons_of_pos (by simp [hxa]), List.length_cons, ih nd.2 hat,
        List.length_cons]
      omega

theorem neighborPositions_length {b : Board} {row col : Nat} :
    (b.neighborPositions row col).length =
      (validWindow b.rows row).length * (validWindow b.cols col).length - 1 := by
  unfold Board.neighborPositions
  have hnd : ((validWindow b.rows row) ×ˢ (validWindow b.cols col)).Nodup :=
    (validWindow_nodup _ _).product (validWindow_nodup _ _)
  have hmem : (row, col) ∈ (validWindow b.rows row) ×ˢ (validWindow b.cols col) :=
    List.mem_product.mpr ⟨self_mem_validWindow _ _, self_mem_validWindow _ _⟩
  rw [length_filter_ne hnd hmem, List.length_product]

theorem countLiveNeighbors?_filled {rows cols row col : Nat}
    (h2r : 2 ≤ rows) (h2c : 2 ≤ cols) (hr : row < rows) (hc : col < cols) :
    (Board.filled rows cols).countLiveNeighbors? row col =
      some ((validWindow rows row).length * (validWindow cols col).length - 1) := by
  rw [countLiveNeighbors?_eq_some (Board.filled_wf rows cols) h2r h2c hr hc]
  congr 1
  have hcell : ∀ p ∈ (Board.filled rows cols).neighborPositions row col,
      (fun p : Nat × Nat => (Board.filled rows cols).cell p.1 p.2) p = true := by
    intro p hp
    rw [mem_neighborPositions] at hp
    exact Board.cell_filled (mem_validWindow_lt h2r hr p.1 hp.1)
      (mem_validWindow_lt h2c hc p.2 hp.2.1)
  rw [List.filter_eq_self.mpr hcell, neighborPositions_length]
  rfl

theorem filter_id_replicate_false (n : Nat) :
    ((List.replicate n false).filter (fun v => v)).length = 0 := by
  induction n with
  | zero => rfl
  | succ m ih =>
    rw [List.replicate_succ, List.filter_cons_of_neg (by simp)]
    exact ih

theorem countLiveNeighbors?_dead {rows cols row col : Nat}
    (h2r : 2 ≤ rows) (h2c : 2 ≤ cols) (hr : row < rows) (hc : col < cols) :
    (Board.dead rows cols).countLiveNeighbors? row col = some 0 := by
  have hall : ∀ p ∈ (Board.dead rows cols).neighborPositions row col,
      (Board.dead rows cols).get? p.1 p.2 = some ((fun _ : Nat × Nat => false) p) := by
    intro p hp
    rw [mem_neighborPositions] at hp
    exact Board.get?_dead (mem_validWindow_lt h2r hr p.1 hp.1)
      (mem_validWindow_lt h2c hc p.2 hp.2.1)
  unfold Board.countLiveNeighbors?
  rw [mapOpt_of_forall_some hall, Option.map_some']
  congr 1
  have hmap : ((Board.dead rows cols).neighborPositions row col).map
      (fun _ : Nat × Nat => false) =
      List.replicate ((Board.dead rows cols).neighborPositions row col).length false := by
    rw [List.eq_replicate_iff]
    refine ⟨List.length_map _ _, ?_⟩
    intro v hv
    rcases List.mem_map.mp hv with ⟨_, _, rfl⟩
    rfl
  rw [hmap, filter_id_replicate_false]

/-! The spec-side neighbor count agrees with the implementation. -/

theorem mem_specWindow_iff {dim idx x : Nat} :
    x ∈ specWindow dim idx ↔ x ∈ validWindow dim idx := by
  unfold specWindow validWindow
  by_cases h0 : idx = 0
  · rw [if_pos h0, if_pos h0]
    simp
  · rw [if_neg h0, if_neg h0]
    by_cases hl : idx = dim - 1
    · rw [if_pos hl, if_pos hl, hl]
      simp only [Finset.mem_insert, Finset.mem_singleton, List.mem_cons,
        List.mem_singleton, List.not_mem_nil, or_false]
      omega
    · rw [if_neg hl, if_neg hl]
      simp

theorem specNeighborCount_eq {b : Board} {row col : Nat} :
    specNeighborCount b row col =
      ((b.neighborPositions row col).filter (fun p => b.cell p.1 p.2)).length := by
  unfold specNeighborCount
  have hnd : ((b.neighborPositions row col).filter
      (fun p : Nat × Nat => b.cell p.1 p.2)).Nodup :=
    (((validWindow_nodup _ _).product (validWindow_nodup _ _)).filter _).filter _
  rw [← List.toFinset_card_of_nodup hnd]
  congr 1
  ext p
  simp only [List.mem_toFinset, List.mem_filter, mem_neighborPositions, Finset.mem_filter,
    Finset.mem_product, mem_specWindow_iff]
  tauto

/-! The generation step. -/

theorem stepCell?_eq_lifeRule {b : Board} (hwf : b.Wf) {row col : Nat}
    (hr : row < b.rows) (hc : col < b.cols) {n : Nat}
    (hn : b.countLiveNeighbors? row col = some n) :
    b.stepCell? row col = some (lifeRule n (b.cell row col)) := by
  rcases n with _ | _ | _ | _ | m
  · unfold Board.stepCell?
    rw [hn]
    rfl
  · unfold Board.stepCell?
    rw [hn]
    rfl
  · unfold Board.stepCell?
    rw [hn]
    exact b.get?_eq_some_cell hwf hr hc
  · unfold Board.stepCell?
    rw [hn]
    rfl
  · unfold Board.stepCell?
    rw [hn]
    rfl

theorem stepCell?_eq_none {b : Board} {row col : Nat}
    (h : b.countLiveNeighbors? row col = none) : b.stepCell? row col = none := by
  unfold Board.stepCell?
  rw [h]

theorem advance?_eq_some_shape {b : Board} (hc : 1 ≤ b.cols) {b' : Board}
    (h : b.advance? = some b') :
    ∃ ns, mapOpt (fun p => b.stepCell? p.1 p.2)
        ((List.range b.rows) ×ˢ (List.range b.cols)) = some ns ∧
      ns.length = b.rows * b.cols ∧ b' = Board.mk b.rows b.cols ns := by
  unfold Board.advance? at h
  cases hm : mapOpt (fun p => b.stepCell? p.1 p.2)
      ((List.range b.rows) ×ˢ (List.range b.cols)) with
  | none => rw [hm] at h; cases h
  | some ns =>
    rw [hm, Option.some_bind] at h
    have hlen : ns.length = b.rows * b.cols := by
      rw [mapOpt_length hm, List.length_product, List.length_range, List.length_range]
    refine ⟨ns, rfl, hlen, ?_⟩
    unfold fromVec? at h
    rw [if_neg (by omega), if_pos (by rw [hlen]; exact Nat.mul_mod_left b.rows b.cols)] at h
    cases h
    rw [hlen, Nat.mul_div_cancel _ (by omega)]

/-! The degenerate single-row / single-column window defect. -/

theorem countLiveNeighbors?_degenerate_row {b : Board} (h1 : b.rows = 1) {row col : Nat}
    (hrow : row < b.rows) (_hcol : col < b.cols) :
    b.countLiveNeighbors? row col = none := by
  have hrow0 : row = 0 := by omega
  subst hrow0
  have hmem : ((1 : Nat), col) ∈ b.neighborPositions 0 col := by
    rw [mem_neighborPositions]
    refine ⟨?_, self_mem_validWindow _ _, by simp⟩
    rw [h1]
    unfold validWindow
    simp
  have hnone : b.get? 1 col = none := Board.get?_none_of_row (by omega)
  unfold Board.countLiveNeighbors?
  rw [mapOpt_eq_none_of_mem hmem hnone]
  rfl

theorem countLiveNeighbors?_degenerate_col {b : Board} (h1 : b.cols = 1) {row col : Nat}
    (_hrow : row < b.rows) (hcol : col < b.cols) :
    b.countLiveNeighbors? row col = none := by
  have hcol0 : col = 0 := by omega
  subst hcol0
  have hmem : (row, (1 : Nat)) ∈ b.neighborPositions row 0 := by
    rw [mem_neighborPositions]
    refine ⟨self_mem_validWindow _ _, ?_, by simp⟩
    rw [h1]
    unfold validWindow
    simp
  have hnone : b.get? row 1 = none := Board.get?_none_of_col (by omega)
  unfold Board.countLiveNeighbors?
  rw [mapOpt_eq_none_of_mem hmem hnone]
  rfl

theorem advance?_degenerate {b : Board} (hr : 1 ≤ b.rows) (hc : 1 ≤ b.cols)
    (hdeg : b.rows = 1 ∨ b.cols = 1) : b.advance? = none := by
  have hmem : ((0 : Nat), (0 : Nat)) ∈ (List.range b.rows) ×ˢ (List.range b.cols) :=
    List.mem_product.mpr ⟨List.mem_range.mpr (by omega), List.mem_range.mpr (by omega)⟩
  have hnone : b.stepCell? 0 0 = none := by
    apply stepCell?_eq_none
    rcases hdeg with h1 | h1
    · exact countLiveNeighbors?_degenerate_row h1 (by omega) (by omega)
    · exact countLiveNeighbors?_degenerate_col h1 (by omega) (by omega)
  unfold Board.advance?
  rw [mapOpt_eq_none_of_mem hmem hnone, Option.none_bind]

/-! Totality of `advance` and rendering away from the degenerate case. -/

theorem advance?_isSome {b : Board} (hwf : b.Wf) (h2r : 2 ≤ b.rows) (h2c : 2 ≤ b.cols) :
    b.advance?.isSome := by
  have hsome : ∀ p ∈ (List.range b.rows) ×ˢ (List.range b.cols),
      (b.stepCell? p.1 p.2).isSome := by
    intro p hp
    obtain ⟨p1, p2⟩ := p
    rw [List.mem_product] at hp
    have hr := List.mem_range.mp hp.1
    have hc := List.mem_range.mp hp.2
    rw [stepCell?_eq_lifeRule hwf hr hc (countLiveNeighbors?_eq_some hwf h2r h2c hr hc)]
    rfl
  obtain ⟨ns, hns⟩ := Option.isSome_iff_exists.mp (mapOpt_isSome hsome)
  have hlen : ns.length = b.rows * b.cols := by
    rw [mapOpt_length hns, List.length_product, List.length_range, List.length_range]
  unfold Board.advance?
  rw [hns, Option.some_bind]
  unfold fromVec?
  rw [if_neg (by omega), if_pos (by rw [hlen]; exact Nat.mul_mod_left _ _)]
  rfl

theorem render?_isSome {b : Board} (hwf : b.Wf) : b.render?.isSome := by
  have hsome : ∀ p ∈ (List.range b.rows) ×ˢ (List.range b.cols),
      ((b.get? p.1 p.2).map (fun v =>
        (if v then ['1'] else ['0']) ++ (if p.2 = b.cols - 1 then ['\n'] else []))).isSome := by
    intro p hp
    obtain ⟨p1, p2⟩ := p
    rw [List.mem_product] at hp
    rw [b.get?_eq_some_cell hwf (List.mem_range.mp hp.1) (List.mem_range.mp hp.2)]
    rfl
  obtain ⟨ns, hns⟩ := Option.isSome_iff_exists.mp (mapOpt_isSome hsome)
  unfold Board.render?
  rw [hns]
  rfl

/-! `advance` on the all-dead board. -/

theorem advance?_dead {rows cols : Nat} (h2r : 2 ≤ rows) (h2c : 2 ≤ cols) :
    (Board.dead rows cols).advance? = some (Board.dead rows cols) := by
  have hall : ∀ p ∈ (List.range rows) ×ˢ (List.range cols),
      (Board.dead rows cols).stepCell? p.1 p.2 = some ((fun _ : Nat × Nat => false) p) := by
    intro p hp
    obtain ⟨p1, p2⟩ := p
    rw [List.mem_product] at hp
    have hr := List.mem_range.mp hp.1
    have hc := List.mem_range.mp hp.2
    exact stepCell?_eq_lifeRule (Board.dead_wf rows cols) hr hc
      (countLiveNeighbors?_dead h2r h2c hr hc)
  have hmap : ((List.range rows) ×ˢ (List.range cols)).map (fun _ : Nat × Nat => false) =
      List.replicate (rows * cols) false := by
    rw [List.eq_replicate_iff]
    constructor
    · rw [List.length_map, List.length_product, List.length_range, List.length_range]
    · intro v hv
      rcases List.mem_map.mp hv with ⟨_, _, rfl⟩
      rfl
  have key : mapOpt (fun p => (Board.dead rows cols).stepCell? p.1 p.2)
      ((List.range rows) ×ˢ (List.range cols)) = some (List.replicate (rows * cols) false) := by
    rw [mapOpt_of_forall_some hall, hmap]
  unfold Board.advance?
  rw [Board.dead_rows, Board.dead_cols, key, Option.some_bind]
  unfold fromVec?
  rw [if_neg (by omega),
    if_pos (by rw [List.length_replicate]; exact Nat.mul_mod_left _ _),
    List.length_replicate, Nat.mul_div_cancel _ (by omega)]
  rfl

/-! Each advanced cell obeys the rule table against the pre-advance grid. -/

theorem advance?_cell_rule {b b' : Board} (hwf : b.Wf) (hc : 1 ≤ b.cols)
    (hadv : b.advance? = some b') {row col : Nat} (hr : row < b.rows)
    (hcol : col < b.cols) :
    ∃ n, b.countLiveNeighbors? row col = some n ∧
      b'.get? row col = some (lifeRule n (b.cell row col)) := by
  obtain ⟨ns, hns, hlen, rfl⟩ := advance?_eq_some_shape hc hadv
  have hpos : ((List.range b.rows) ×ˢ (List.range b.cols))[row * b.cols + col]? =
      some (row, col) := by
    have hp := product_getElem? (List.range b.rows) (List.range b.cols) row col
      (by rw [List.length_range]; exact hcol)
    rw [List.length_range] at hp
    rw [hp, List.getElem?_range hr, List.getElem?_range hcol]
    rfl
  obtain ⟨y, hy, hidx⟩ := mapOpt_getElem? hns hpos
  have hy' : b.stepCell? row col = some y := hy
  cases hcnt : b.countLiveNeighbors? row col with
  | none => rw [stepCell?_eq_none hcnt] at hy'; cases hy'
  | some n =>
    refine ⟨n, rfl, ?_⟩
    rw [stepCell?_eq_lifeRule hwf hr hcol hcnt] at hy'
    cases hy'
    unfold Board.get?
    rw [if_pos ⟨hr, hcol⟩]
    exact hidx

/-! Rendering produces, row by row, the cells as digits and one trailing
newline per row. -/

theorem row_flatten {cols : Nat} (hc : 1 ≤ cols) (f : Nat → Bool) :
    ((List.range cols).map (fun c =>
      (if f c then ['1'] else ['0']) ++ (if c = cols - 1 then ['\n'] else []))).flatten =
    ((List.range cols).map (fun c => if f c then '1' else '0')) ++ ['\n'] := by
  obtain ⟨m, rfl⟩ : ∃ m, cols = m + 1 := ⟨cols - 1, by omega⟩
  rw [List.range_succ, List.map_append, List.map_append, List.flatten_append]
  have h1 : (List.range m).map (fun c =>
      (if f c then ['1'] else ['0']) ++ (if c = m + 1 - 1 then ['\n'] else [])) =
      (List.range m).map (fun c => [if f c then '1' else '0']) := by
    apply List.map_congr_left
    intro c hcm
    rw [List.mem_range] at hcm
    have hne : c ≠ m + 1 - 1 := by omega
    rw [if_neg hne, List.append_nil]
    by_cases hf : f c <;> simp [hf]
  have h2 : ∀ (l : List Nat) (d : Nat → Char),
      (l.map (fun c => [d c])).flatten = l.map d := by
    intro l d
    induction l with
    | nil => rfl
    | cons a t ih =>
      rw [List.map_cons, List.map_cons, List.flatten_cons, ih]
      rfl
  have h3 : (([m].map (fun c =>
      (if f c then ['1'] else ['0']) ++ (if c = m + 1 - 1 then ['\n'] else []))).flatten) =
      [if f m then '1' else '0'] ++ ['\n'] := by
    simp only [List.map_cons, List.map_nil, List.flatten_cons, List.flatten_nil,
      List.append_nil]
    have heq : m = m + 1 - 1 := by omega
    rw [if_pos heq]
    by_cases hf : f m <;> simp [hf]
  rw [h1, h2, h3]
  simp [List.append_assoc]

theorem product_append (l1 l1' : List α) (l2 : List β) :
    (l1 ++ l1') ×ˢ l2 = (l1 ×ˢ l2) ++ (l1' ×ˢ l2) := by
  simp [SProd.sprod, List.product]

theorem flatten_grid (rows cols : Nat) (hc : 1 ≤ cols) (f : Nat → Nat → Bool) :
    (((List.range rows) ×ˢ (List.range cols)).map (fun p =>
      (if f p.1 p.2 then ['1'] else ['0']) ++
        (if p.2 = cols - 1 then ['\n'] else []))).flatten =
    ((List.range rows).map (fun r =>
      ((List.range cols).map (fun c => if f r c then '1' else '0')) ++ ['\n'])).flatten := by
  induction rows with
  | zero => rfl
  | succ m ih =>
    rw [List.range_succ, product_append, List.map_append, List.flatten_append,
      List.map_append, List.flatten_append, ih]
    congr 1
    rw [product_cons]
    have hnil : ([] : List Nat) ×ˢ (List.range cols) = [] := rfl
    rw [hnil, List.append_nil]
    have hmap : ((List.range cols).map (Prod.mk m)).map (fun p : Nat × Nat =>
        (if f p.1 p.2 then ['1'] else ['0']) ++ (if p.2 = cols - 1 then ['\n'] else [])) =
        (List.range cols).map (fun c =>
          (if f m c then ['1'] else ['0']) ++ (if c = cols - 1 then ['\n'] else [])) := by
      rw [List.map_map]
      rfl
    rw [hmap, row_flatten hc]
    simp

theorem render?_eq_spec {b : Board} (hwf : b.Wf) (hc : 1 ≤ b.cols) :
    b.render? = some (specRender b) := by
  have hall : ∀ p ∈ (List.range b.rows) ×ˢ (List.range b.cols),
      (b.get? p.1 p.2).map (fun v =>
        (if v then ['1'] else ['0']) ++ (if p.2 = b.cols - 1 then ['\n'] else [])) =
      some ((fun p : Nat × Nat =>
        (if b.cell p.1 p.2 then ['1'] else ['0']) ++
          (if p.2 = b.cols - 1 then ['\n'] else [])) p) := by
    intro p hp
    obtain ⟨p1, p2⟩ := p
    rw [List.mem_product] at hp
    rw [b.get?_eq_some_cell hwf (List.mem_range.mp hp.1) (List.mem_range.mp hp.2)]
    rfl
  unfold Board.render?
  rw [mapOpt_of_forall_some hall, Option.map_some']
  unfold specRender
  rw [flatten_grid b.rows b.cols hc (fun r c => b.cell r c)]

/-! Claims. -/

/-- C1: on every well-formed board with positive dimensions, `advance`
replaces the state of each cell `(row, col)` with the fixed rule table
applied to `n = count_live_neighbors(row, col)` evaluated against the
pre-advance grid (`n ≤ 1` dead, `n = 2` the cell's current state, `n = 3`
alive, `n ≥ 4` dead); both the count and the copied current state are read
from the prior generation `b`, never from the new one. -/
theorem claim_c1 {b b' : Board} (hwf : b.Wf) (_hr1 : 1 ≤ b.rows) (hc1 : 1 ≤ b.cols)
    (hadv : b.advance? = some b') {row col : Nat} (hr : row < b.rows)
    (hc : col < b.cols) :
    ∃ n, b.countLiveNeighbors? row col = some n ∧
      b'.get? row col = some (lifeRule n (b.cell row col)) :=
  advance?_cell_rule hwf hc1 hadv hr hc

/-- Witness for C1 on the birth-rule fixture at cell (0, 1). -/
theorem claim_c1_witness :
    ∃ n, birthBoard.countLiveNeighbors? 0 1 = some n ∧
      birthAfter.get? 0 1 = some (lifeRule n (birthBoard.cell 0 1)) :=
  claim_c1 (by decide) (by decide) (by decide) (by decide) (by decide) (by decide)

/-- C2: on boards with at least two rows and two columns,
`count_live_neighbors` returns the number of live cells in the cartesian
product of the clamped row and column windows excluding the centre, and on
an all-alive board of the same dimensions the count is exactly 3 at a
corner, 5 on an edge that is not a corner, and 8 in the interior. -/
theorem claim_c2 {b : Board} (hwf : b.Wf) (h2r : 2 ≤ b.rows) (h2c : 2 ≤ b.cols)
    {row col : Nat} (hr : row < b.rows) (hc : col < b.cols) :
    b.countLiveNeighbors? row col = some (specNeighborCount b row col) ∧
    ((row = 0 ∨ row = b.rows - 1) → (col = 0 ∨ col = b.cols - 1) →
      (Board.filled b.rows b.cols).countLiveNeighbors? row col = some 3) ∧
    (((row = 0 ∨ row = b.rows - 1) ∧ 0 < col ∧ col < b.cols - 1) ∨
        ((col = 0 ∨ col = b.cols - 1) ∧ 0 < row ∧ row < b.rows - 1) →
      (Board.filled b.rows b.cols).countLiveNeighbors? row col = some 5) ∧
    (0 < row ∧ row < b.rows - 1 → 0 < col ∧ col < b.cols - 1 →
      (Board.filled b.rows b.cols).countLiveNeighbors? row col = some 8) := by
  refine ⟨?_, ?_, ?_, ?_⟩
  · rw [countLiveNeighbors?_eq_some hwf h2r h2c hr hc, specNeighborCount_eq]
  · intro hrow hcol
    rw [countLiveNeighbors?_filled h2r h2c hr hc, validWindow_length, validWindow_length,
      if_pos hrow, if_pos hcol]
  · intro hedge
    rw [countLiveNeighbors?_filled h2r h2c hr hc, validWindow_length, validWindow_length]
    rcases hedge with ⟨hrow, hcol⟩ | ⟨hcol, hrow⟩
    · rw [if_pos hrow, if_neg (by omega)]
    · rw [if_neg (by omega), if_pos hcol]
  · intro hrow hcol
    rw [countLiveNeighbors?_filled h2r h2c hr hc, validWindow_length, validWindow_length,
      if_neg (by omega), if_neg (by omega)]

/-- Witness for C2 on the all-alive 4×4 board at the corner (0, 0). -/
theorem claim_c2_witness :
    (Board.filled 4 4).countLiveNeighbors? 0 0 =
      some (specNeighborCount (Board.filled 4 4) 0 0) ∧
    ((0 = 0 ∨ 0 = 3) → (0 = 0 ∨ 0 = 3) →
      (Board.filled 4 4).countLiveNeighbors? 0 0 = some 3) ∧
    (((0 = 0 ∨ 0 = 3) ∧ 0 < 0 ∧ 0 < 3) ∨ ((0 = 0 ∨ 0 = 3) ∧ 0 < 0 ∧ 0 < 3) →
      (Board.filled 4 4).countLiveNeighbors? 0 0 = some 5) ∧
    (0 < 0 ∧ 0 < 3 → 0 < 0 ∧ 0 < 3 →
      (Board.filled 4 4).countLiveNeighbors? 0 0 = some 8) :=
  claim_c2 (by decide) (by decide) (by decide) (by decide) (by decide)

/-- C3: on a board with exactly one row (or exactly one column), the
first-row (first-column) window rule produces `{0, 1}` even though index 1
does not exist on that axis, so every in-range neighbor count performs an
out-of-range grid access and aborts, and so does `advance`: a genuine
runtime failure on otherwise-valid input. -/
theorem claim_c3 {b : Board} (hr1 : 1 ≤ b.rows) (hc1 : 1 ≤ b.cols)
    (hdeg : b.rows = 1 ∨ b.cols = 1) {row col : Nat} (hrow : row < b.rows)
    (hcol : col < b.cols) :
    b.countLiveNeighbors? row col = none ∧ b.advance? = none := by
  constructor
  · rcases hdeg with h1 | h1
    · exact countLiveNeighbors?_degenerate_row h1 hrow hcol
    · exact countLiveNeighbors?_degenerate_col h1 hrow hcol
  · exact advance?_degenerate hr1 hc1 hdeg

/-- Witness for C3 on the all-dead 1×1 board. -/
theorem claim_c3_witness :
    (Board.dead 1 1).countLiveNeighbors? 0 0 = none ∧
      (Board.dead 1 1).advance? = none :=
  claim_c3 (by decide) (by decide) (Or.inl (by decide)) (by decide) (by decide)

/-- C4 as stated is false: `Board::dead(1, 1)` has valid dimensions
(rows ≥ 1, cols ≥ 1), yet `advance` performs an out-of-range access on it
and aborts, so `advance` is not total over all valid dimensions. -/
theorem claim_c4_counterexample : (Board.dead 1 1).advance? = none := by decide

/-- C4 (amended): construction with valid dimensions has no failure path,
rendering has no failure path on any well-formed board (single-row and
single-column boards included), and `advance` has no failure path on
well-formed boards with at least two rows and two columns — while on every
board with exactly one row or one column it hits the degenerate-window
out-of-range access and aborts. -/
theorem claim_c4 (rows cols : Nat) {r b d : Board} (hrwf : r.Wf)
    (hwf : b.Wf) (h2r : 2 ≤ b.rows) (h2c : 2 ≤ b.cols)
    (hd1 : 1 ≤ d.rows) (hd2 : 1 ≤ d.cols) (hdeg : d.rows = 1 ∨ d.cols = 1) :
    (Board.dead rows cols).Wf ∧ r.render?.isSome ∧ b.advance?.isSome ∧
      d.advance? = none :=
  ⟨Board.dead_wf rows cols, render?_isSome hrwf, advance?_isSome hwf h2r h2c,
    advance?_degenerate hd1 hd2 hdeg⟩

/-- Witness for C4: a 3×3 construction, rendering of a single-row 1×3
board, a total advance on the 2×2 board, and the aborting advance on the
single-row 1×5 board. -/
theorem claim_c4_witness :
    (Board.dead 3 3).Wf ∧ (Board.dead 1 3).render?.isSome ∧
      (Board.dead 2 2).advance?.isSome ∧ (Board.dead 1 5).advance? = none :=
  claim_c4 3 3 (by decide) (by decide) (by decide) (by decide) (by decide)
    (by decide) (Or.inl (by decide))

/-- C5: a successful `advance` preserves the dimensions and the storage
invariant: the row and column counts are unchanged and the new cell array
has exactly `rows * cols` elements. -/
theorem claim_c5 {b b' : Board} (_hr1 : 1 ≤ b.rows) (hc1 : 1 ≤ b.cols)
    (hadv : b.advance? = some b') :
    b'.rows = b.rows ∧ b'.cols = b.cols ∧ b'.cells.length = b.rows * b.cols := by
  obtain ⟨ns, _, hlen, rfl⟩ := advance?_eq_some_shape hc1 hadv
  exact ⟨rfl, rfl, hlen⟩

/-- Witness for C5 on the blinker. -/
theorem claim_c5_witness :
    blinkerH.rows = blinkerV.rows ∧ blinkerH.cols = blinkerV.cols ∧
      blinkerH.cells.length = blinkerV.rows * blinkerV.cols :=
  claim_c5 (by decide) (by decide) (by decide)

/-- C6 as stated is false: the all-dead 1×1 board is a board of all-dead
cells, yet `advance` does not leave it unchanged — it aborts on the
degenerate window. -/
theorem claim_c6_counterexample :
    (Board.dead 1 1).advance? ≠ some (Board.dead 1 1) := by decide

/-- C6 (amended): every all-dead board with at least two rows and two
columns is a fixed point of `advance`: each cell sees 0 live neighbors and
stays dead. -/
theorem claim_c6 {rows cols : Nat} (h2r : 2 ≤ rows) (h2c : 2 ≤ cols) :
    (Board.dead rows cols).advance? = some (Board.dead rows cols) :=
  advance?_dead h2r h2c

/-- Witness for C6 on the all-dead 3×3 board. -/
theorem claim_c6_witness :
    (Board.dead 3 3).advance? = some (Board.dead 3 3) :=
  claim_c6 (by decide) (by decide)

/-- C7: the block, beehive and boat still lifes are each unchanged by one
advance. -/
theorem claim_c7 :
    blockBoard.advance? = some blockBoard ∧
    beehiveBoard.advance? = some beehiveBoard ∧
    boatBoard.advance? = some boatBoard := by
  refine ⟨by decide, by decide, by decide⟩

/-- C8: the vertical blinker becomes the horizontal line after one advance
and returns after the second (period 2, the two states being distinct), and
the toad returns to its original configuration after exactly 2 advances
(its intermediate state being distinct from the original). -/
theorem claim_c8 :
    blinkerV.advance? = some blinkerH ∧ blinkerH.advance? = some blinkerV ∧
    blinkerH ≠ blinkerV ∧
    toadBoard.advance? = some toadMid ∧ toadMid.advance? = some toadBoard ∧
    toadMid ≠ toadBoard := by
  refine ⟨by decide, by decide, by decide, by decide, by decide, by decide⟩

/-- C9: rendering emits, for each row in order, each cell as `'1'` (alive)
or `'0'` (dead) with no separator between columns and exactly one newline
after the last column of the row, and nothing else; it is a pure function
of the board, so the board's state is unchanged. -/
theorem claim_c9 {b : Board} (hwf : b.Wf) (hc1 : 1 ≤ b.cols) :
    b.render? = some (specRender b) :=
  render?_eq_spec hwf hc1

/-- Witness for C9 on a concrete 2×2 board. -/
theorem claim_c9_witness :
    (boardOfNats [0, 1, 1, 0] 2).render? =
      some (specRender (boardOfNats [0, 1, 1, 0] 2)) :=
  claim_c9 (by decide) (by decide)

/-- C10: the 2×2 all-alive board is unchanged by `advance`: every cell is a
corner whose clamped window is the whole grid, each cell has exactly 3 live
neighbors, and so each survives. -/
theorem claim_c10 :
    (Board.filled 2 2).advance? = some (Board.filled 2 2) ∧
    (Board.filled 2 2).countLiveNeighbors? 0 0 = some 3 ∧
    (Board.filled 2 2).countLiveNeighbors? 0 1 = some 3 ∧
    (Board.filled 2 2).countLiveNeighbors? 1 0 = some 3 ∧
    (Board.filled 2 2).countLiveNeighbors? 1 1 = some 3 := by
  refine ⟨by decide, by decide, by decide, by decide, by decide⟩

end GameOfLife
